import Mathlib

/-!
Shallow embedding of the resilience and caching core of the MayreneO
playlist manager, translated from src/util/retryUtils.js and
src/util/cacheUtils.js, together with theorems settling the
specification claims about that core.

Modelling conventions:
* JavaScript timestamps are naturals (epoch milliseconds); all the code
  under study compares and adds them, never divides.
* A JavaScript value that may be null is an `Option`: `none` is null.
  Cache reads return `Option` as well, so a miss and a stored null are
  both `none`, exactly as in the source where both read back as null.
* A JavaScript Map is an insertion-ordered association list: `Map.set`
  updates a present key in place and appends an absent key at the end;
  `Map.delete` removes the entry.  A plain object used as a dictionary
  behaves the same way for the (non-numeric) keys the code uses.
* localStorage writes can throw; the fault oracle `faults` gives the
  outcome of each successive value write (`none` = success, `some name`
  = an exception with that `name`), consumed in program order via
  `tick`.  Metadata writes are modelled as succeeding: in the source
  their failures are caught and only logged inside `_setMetadata`.
* Randomness (jitter) is an oracle `rand : Nat -> Rat`, and asynchrony
  is sequentialized: an operation under retry is a function from the
  attempt index to its outcome, and the single-threaded event loop of
  the source makes attempts strictly sequential anyway.
-/

namespace MayreneO

/-! ## JavaScript Map / dictionary model -/

def mapLookup {β : Type} (k : String) : List (String × β) → Option β
  | [] => none
  | (k2, v) :: rest => if k2 = k then some v else mapLookup k rest

def mapErase {β : Type} (k : String) (l : List (String × β)) : List (String × β) :=
  l.filter (fun p => p.1 ≠ k)

def mapSet {β : Type} (k : String) (v : β) : List (String × β) → List (String × β)
  | [] => [(k, v)]
  | (k2, v2) :: rest => if k2 = k then (k, v) :: rest else (k2, v2) :: mapSet k v rest

/-! ## retryUtils.js : outcomes, backoff, retry loop -/

/-- Result of invoking a caller-supplied operation once: it resolves
with a value or rejects with an error. -/
inductive Outcome (α ε : Type) where
  | ok (a : α)
  | err (e : ε)
deriving DecidableEq

/-- RetryPolicy, the recognized retry configuration options
(maxAttempts, baseDelay, maxDelay, backoffFactor, retryCondition). -/
structure RetryConfig (ε : Type) where
  maxAttempts : Nat
  baseDelay : ℚ
  maxDelay : ℚ
  backoffFactor : ℚ
  retryCondition : ε → Bool

/-- calculateDelay from retryUtils.js:
min(baseDelay * backoffFactor ^ attempt, maxDelay), attempt 0-based. -/
def calculateDelay (attempt : Nat) (baseDelay backoffFactor maxDelay : ℚ) : ℚ :=
  min (baseDelay * backoffFactor ^ attempt) maxDelay

/-- addJitter from retryUtils.js: delay + delay * jitterFactor * random,
with the random draw passed in explicitly. -/
def addJitter (delay jitterFactor rand : ℚ) : ℚ :=
  delay + delay * jitterFactor * rand

/-- Observable result of a whole retryWithBackoff run: the settled
outcome (`err none` only for maxAttempts = 0, where the source throws
its uninitialized lastError), how many times the operation was invoked,
and the total backoff delay slept. -/
structure RetryResult (α ε : Type) where
  outcome : Outcome α (Option ε)
  invocations : Nat
  totalDelay : ℚ
deriving DecidableEq

/-- The attempt loop of retryWithBackoff.  `attempt` is the 0-based
index of the next attempt, `remaining` the attempts left out of
maxAttempts, `lastError` the error of the previous attempt.  The order
of the exits mirrors the source: a successful attempt returns; on
failure, the last attempt breaks, then a non-retryable error breaks,
otherwise the loop sleeps the jittered backoff delay and retries. -/
def retryGo {α ε : Type} (op : Nat → Outcome α ε) (cfg : RetryConfig ε) (rand : Nat → ℚ) :
    Nat → Nat → Option ε → ℚ → RetryResult α ε
  | attempt, 0, lastError, total => ⟨.err lastError, attempt, total⟩
  | attempt, r + 1, _lastError, total =>
    match op attempt with
    | .ok a => ⟨.ok a, attempt + 1, total⟩
    | .err e =>
      if r = 0 then ⟨.err (some e), attempt + 1, total⟩
      else if cfg.retryCondition e then
        retryGo op cfg rand (attempt + 1) r (some e)
          (total + addJitter (calculateDelay attempt cfg.baseDelay cfg.backoffFactor cfg.maxDelay)
            (1 / 10) (rand attempt))
      else ⟨.err (some e), attempt + 1, total⟩

/-- retryWithBackoff from retryUtils.js. -/
def retryWithBackoff {α ε : Type} (op : Nat → Outcome α ε) (cfg : RetryConfig ε)
    (rand : Nat → ℚ) : RetryResult α ε :=
  retryGo op cfg rand 0 cfg.maxAttempts none 0

/-! ## retryUtils.js : CircuitBreaker -/

/-- The breaker states CLOSED / OPEN / HALF_OPEN (the OPEN constructor
is spelled `opened` because `open` is a Lean keyword). -/
inductive BreakerState where
  | closed
  | opened
  | halfOpen
deriving DecidableEq

structure CircuitBreaker where
  failureThreshold : Nat
  resetTimeout : Nat
  monitoringPeriod : Nat
  state : BreakerState
  failureCount : Nat
  lastFailureTime : Option Nat
  successCount : Nat
deriving DecidableEq

/-- The constructor with explicit failureThreshold and resetTimeout
(source defaults: 5 and 60000; monitoringPeriod default 10000). -/
def CircuitBreaker.init (failureThreshold resetTimeout : Nat) : CircuitBreaker :=
  { failureThreshold := failureThreshold, resetTimeout := resetTimeout,
    monitoringPeriod := 10000, state := .closed, failureCount := 0,
    lastFailureTime := none, successCount := 0 }

/-- onSuccess from retryUtils.js. -/
def CircuitBreaker.onSuccess (cb : CircuitBreaker) : CircuitBreaker :=
  let cb := { cb with failureCount := 0 }
  if cb.state = .halfOpen then
    let cb := { cb with successCount := cb.successCount + 1 }
    if cb.successCount ≥ 3 then { cb with state := .closed } else cb
  else cb

/-- onFailure from retryUtils.js. -/
def CircuitBreaker.onFailure (cb : CircuitBreaker) (now : Nat) : CircuitBreaker :=
  let cb := { cb with failureCount := cb.failureCount + 1, lastFailureTime := some now }
  if cb.failureCount ≥ cb.failureThreshold then { cb with state := .opened } else cb

/-- Result of CircuitBreaker.execute: the synthetic breaker-open
rejection, or the operation outcome passed through. -/
inductive ExecResult (α ε : Type) where
  | rejected
  | ok (a : α)
  | err (e : ε)
deriving DecidableEq

/-- The shared tail of execute: run the operation and route the outcome
through onSuccess / onFailure, re-throwing the underlying error. -/
def CircuitBreaker.attempt {α ε : Type} (cb : CircuitBreaker) (now : Nat)
    (op : Outcome α ε) : ExecResult α ε × CircuitBreaker :=
  match op with
  | .ok a => (.ok a, cb.onSuccess)
  | .err e => (.err e, cb.onFailure now)

/-- execute from retryUtils.js.  A null lastFailureTime coerces to 0 in
the source subtraction, hence `getD 0`. -/
def CircuitBreaker.execute {α ε : Type} (cb : CircuitBreaker) (now : Nat)
    (op : Outcome α ε) : ExecResult α ε × CircuitBreaker :=
  if cb.state = .opened then
    if (now : Int) - (cb.lastFailureTime.getD 0 : Nat) > (cb.resetTimeout : Int) then
      CircuitBreaker.attempt { cb with state := .halfOpen, successCount := 0 } now op
    else (.rejected, cb)
  else CircuitBreaker.attempt cb now op

/-- Fold a breaker over a list of (timestamp, operation outcome) events,
keeping only the state: used to exhibit reachable breaker states. -/
def runBreaker (cb : CircuitBreaker) (events : List (Nat × Outcome Unit Nat)) : CircuitBreaker :=
  events.foldl (fun c p => (c.execute p.1 p.2).2) cb

/-- A reachable breaker state: five consecutive failures at t = 0..4
open the breaker (threshold 5), and a success at t = 70000 (past the
60000 ms reset timeout) moves it to HALF_OPEN with one recorded
success. -/
def cbHalfOpenAfterSuccess : CircuitBreaker :=
  runBreaker (CircuitBreaker.init 5 60000)
    [(0, .err 0), (1, .err 0), (2, .err 0), (3, .err 0), (4, .err 0), (70000, .ok ())]

/-! ## cacheUtils.js : MemoryCache -/

/-- The stored cache entry shape { data, expiresAt, createdAt } used by
both tiers. -/
structure CacheItem (α : Type) where
  data : Option α
  expiresAt : Nat
  createdAt : Nat
deriving DecidableEq

structure MemoryCache (α : Type) where
  cache : List (String × CacheItem α)
  maxSize : Nat
deriving DecidableEq

/-- MemoryCache.get: miss on absent key; lazily delete and miss on an
expired key; on a hit, move the entry to the most-recently-used end
(delete then re-insert) and return the stored data. -/
def MemoryCache.get {α : Type} (mc : MemoryCache α) (now : Nat) (key : String) :
    Option α × MemoryCache α :=
  match mapLookup key mc.cache with
  | none => (none, mc)
  | some item =>
    if now > item.expiresAt then
      (none, { mc with cache := mapErase key mc.cache })
    else
      (item.data, { mc with cache := mapSet key item (mapErase key mc.cache) })

/-- MemoryCache.set: if the map already holds at least maxSize entries,
delete the entry at the iteration head (the source takes
cache.keys().next().value, undefined on an empty map, making the delete
a no-op), then write the new entry. -/
def MemoryCache.set {α : Type} (mc : MemoryCache α) (now : Nat) (key : String)
    (data : Option α) (ttl : Nat) : MemoryCache α :=
  let mc :=
    if mc.cache.length ≥ mc.maxSize then
      match mc.cache with
      | [] => mc
      | (firstKey, _) :: _ => { mc with cache := mapErase firstKey mc.cache }
    else mc
  { mc with cache := mapSet key ⟨data, now + ttl, now⟩ mc.cache }

def MemoryCache.delete {α : Type} (mc : MemoryCache α) (key : String) : MemoryCache α :=
  { mc with cache := mapErase key mc.cache }

def MemoryCache.cleanup {α : Type} (mc : MemoryCache α) (now : Nat) : MemoryCache α :=
  { mc with cache := mc.cache.filter (fun p => ¬ now > p.2.expiresAt) }

/-! ## cacheUtils.js : PersistentCache -/

/-- One metadata record: { expiresAt, size }. -/
structure MetaRec where
  expiresAt : Nat
  size : Nat
deriving DecidableEq

/-- CACHE_CONFIG.MAX_ENTRIES. -/
def CACHE_MAX_ENTRIES : Nat := 100

/-- The persistent tier: the durable value entries, the parsed metadata
index object, and the fault oracle for successive raw value writes. -/
structure PersistentCache (α : Type) where
  vals : List (String × CacheItem α)
  meta : List (String × MetaRec)
  faults : Nat → Option String
  tick : Nat

/-- One raw localStorage.setItem of a value entry: consult the fault
oracle; on success store the item, on failure leave the store unchanged
and report the thrown error name.  Either way the write is consumed. -/
def PersistentCache.rawSetItem {α : Type} (pc : PersistentCache α) (key : String)
    (item : CacheItem α) : Option String × PersistentCache α :=
  match pc.faults pc.tick with
  | none => (none, { pc with vals := mapSet key item pc.vals, tick := pc.tick + 1 })
  | some name => (some name, { pc with tick := pc.tick + 1 })

/-- PersistentCache.delete: remove the value entry and its metadata
record (removeItem does not throw). -/
def PersistentCache.delete {α : Type} (pc : PersistentCache α) (key : String) :
    PersistentCache α :=
  { pc with vals := mapErase key pc.vals, meta := mapErase key pc.meta }

/-- PersistentCache.get: absent is a miss; an expired entry is deleted
and missed; otherwise the stored data is returned. -/
def PersistentCache.get {α : Type} (pc : PersistentCache α) (now : Nat) (key : String) :
    Option α × PersistentCache α :=
  match mapLookup key pc.vals with
  | none => (none, pc)
  | some item =>
    if now > item.expiresAt then (none, pc.delete key)
    else (item.data, pc)

/-- PersistentCache.cleanup: walk the metadata, remove the value entry
of every expired record, and keep only the unexpired records. -/
def PersistentCache.cleanup {α : Type} (pc : PersistentCache α) (now : Nat) :
    PersistentCache α :=
  let expiredKeys := (pc.meta.filter (fun p => now > p.2.expiresAt)).map Prod.fst
  { pc with
    vals := pc.vals.filter (fun p => ¬ p.1 ∈ expiredKeys),
    meta := pc.meta.filter (fun p => ¬ now > p.2.expiresAt) }

/-- Stable insertion into a list sorted by expiresAt ascending; the
fold below is a stable sort, matching the stable Array.prototype.sort
of the source comparator (a, b) => a.expiresAt - b.expiresAt. -/
def insertByExpiry (x : String × MetaRec) : List (String × MetaRec) → List (String × MetaRec)
  | [] => [x]
  | y :: ys => if x.2.expiresAt ≤ y.2.expiresAt then x :: y :: ys else y :: insertByExpiry x ys

def sortByExpiry (l : List (String × MetaRec)) : List (String × MetaRec) :=
  l.foldr insertByExpiry []

/-- _cleanupIfNeeded from cacheUtils.js: when the metadata holds more
than MAX_ENTRIES keys, sort the records by expiresAt ascending, take
the first Math.floor(MAX_ENTRIES * 0.2) = 20 of them, and delete each
(the 100 * 0.2 float product is exactly 20.0). -/
def PersistentCache.cleanupIfNeeded {α : Type} (pc : PersistentCache α) : PersistentCache α :=
  if pc.meta.length > CACHE_MAX_ENTRIES then
    let victims := (sortByExpiry pc.meta).take (CACHE_MAX_ENTRIES * 2 / 10)
    victims.foldl (fun acc p => acc.delete p.1) pc
  else pc

/-- PersistentCache.set, with `jsonLength` abstracting
JSON.stringify(item).length.  The result is `Except` so that an
uncaught throw would be representable: the body mirrors the source
try/catch structure — on a successful write update the metadata and run
_cleanupIfNeeded; on a QuotaExceededError run a full cleanup and retry
the write exactly once, dropping a second failure; drop any other write
error. -/
def PersistentCache.set {α : Type} (jsonLength : CacheItem α → Nat) (pc : PersistentCache α)
    (now : Nat) (key : String) (data : Option α) (ttl : Nat) :
    Except String (PersistentCache α) :=
  let item : CacheItem α := ⟨data, now + ttl, now⟩
  match pc.rawSetItem key item with
  | (none, pc) =>
    let pc := { pc with meta := mapSet key ⟨item.expiresAt, jsonLength item⟩ pc.meta }
    .ok pc.cleanupIfNeeded
  | (some errName, pc) =>
    if errName = "QuotaExceededError" then
      let pc := pc.cleanup now
      match pc.rawSetItem key item with
      | (none, pc) => .ok pc
      | (some _, pc) => .ok pc
    else .ok pc

/-- PersistentCache.clear: remove the value entry of every key listed
in the metadata, then drop the metadata record itself. -/
def PersistentCache.clear {α : Type} (pc : PersistentCache α) : PersistentCache α :=
  let keys := pc.meta.map Prod.fst
  { pc with vals := pc.vals.filter (fun p => ¬ p.1 ∈ keys), meta := [] }

/-! ## cacheUtils.js : HybridCache and withCache -/

structure CacheStats where
  hits : Nat
  misses : Nat
  sets : Nat
deriving DecidableEq

structure HybridCache (α : Type) where
  memoryCache : MemoryCache α
  persistentCache : PersistentCache α
  stats : CacheStats

/-- HybridCache.get: memory tier first (hit increments hits); on a
memory miss consult the persistent tier and on a hit promote the value
into the memory tier for 5 minutes and increment hits; on a double miss
increment misses and return null. -/
def HybridCache.get {α : Type} (hc : HybridCache α) (now : Nat) (key : String) :
    Option α × HybridCache α :=
  match hc.memoryCache.get now key with
  | (some v, mem) =>
    (some v,
      { hc with
        memoryCache := mem,
        stats := { hc.stats with hits := hc.stats.hits + 1 } })
  | (none, mem) =>
    match hc.persistentCache.get now key with
    | (some v, pc) =>
      (some v,
        { memoryCache := mem.set now key (some v) (5 * 60 * 1000),
          persistentCache := pc,
          stats := { hc.stats with hits := hc.stats.hits + 1 } })
    | (none, pc) =>
      (none,
        { memoryCache := mem,
          persistentCache := pc,
          stats := { hc.stats with misses := hc.stats.misses + 1 } })

/-- HybridCache.set: memory tier with min(ttl, 5 minutes), persistent
tier with the full ttl, then count the set.  PersistentCache.set never
yields an error (its body catches everywhere); the error arm keeps the
tier unchanged and is unreachable. -/
def HybridCache.set {α : Type} (jsonLength : CacheItem α → Nat) (hc : HybridCache α)
    (now : Nat) (key : String) (data : Option α) (ttl : Nat) : HybridCache α :=
  let mem := hc.memoryCache.set now key data (min ttl (5 * 60 * 1000))
  let pc :=
    match PersistentCache.set jsonLength hc.persistentCache now key data ttl with
    | .ok pc => pc
    | .error _ => hc.persistentCache
  { memoryCache := mem,
    persistentCache := pc,
    stats := { hc.stats with sets := hc.stats.sets + 1 } }

/-- One invocation of a function wrapped by withCache, at the cache key
derived from the arguments.  `opResult` is what the underlying
operation would do if invoked; the returned Bool records whether it was
invoked.  A cache hit returns the cached value without invoking; a miss
invokes, caches a resolved value under the ttl, and re-throws a
rejection without caching. -/
def withCacheCall {α ε : Type} (jsonLength : CacheItem α → Nat) (hc : HybridCache α)
    (now : Nat) (key : String) (ttl : Nat) (opResult : Outcome (Option α) ε) :
    Outcome (Option α) ε × HybridCache α × Bool :=
  match hc.get now key with
  | (some v, hc) => (.ok (some v), hc, false)
  | (none, hc) =>
    match opResult with
    | .ok v => (.ok v, HybridCache.set jsonLength hc now key v ttl, true)
    | .err e => (.err e, hc, true)

/-! ## Concrete instances used by counterexamples and witnesses -/

/-- A concrete retry policy: 3 attempts, retryable exactly for error
codes below 3. -/
def cfgW : RetryConfig Nat := ⟨3, 1, 10, 2, fun e => decide (e < 3)⟩

/-- A two-entry memory cache at capacity (maxSize 2), both entries
unexpired before t = 100; the iteration head is "a". -/
def mc2 : MemoryCache Nat :=
  ⟨[("a", ⟨some 1, 100, 0⟩), ("b", ⟨some 2, 100, 0⟩)], 2⟩

/-- An empty hybrid cache whose persistent tier never faults. -/
def hcEmpty : HybridCache Nat :=
  ⟨⟨[], 100⟩, ⟨[], [], fun _ => none, 0⟩, ⟨0, 0, 0⟩⟩

/-- The serialized-length abstraction used at concrete instances. -/
def jlen0 : CacheItem Nat → Nat := fun _ => 0

/-- An empty persistent cache whose first raw write throws
QuotaExceededError and whose second succeeds. -/
def pcQuota : PersistentCache Nat :=
  ⟨[], [], fun n => if n = 0 then some "QuotaExceededError" else none, 0⟩

/-- A hybrid cache whose memory tier is empty and whose persistent tier
holds an unexpired value 7 under "k". -/
def hcPromo : HybridCache Nat :=
  ⟨⟨[], 100⟩, ⟨[("k", ⟨some 7, 100, 0⟩)], [("k", ⟨100, 5⟩)], fun _ => none, 0⟩, ⟨0, 0, 0⟩⟩

/-- Key i of the 105-entry metadata instance (a single printable
character; distinct for i < 105). -/
def ckey (i : Nat) : String := String.mk [Char.ofNat (65 + i)]

/-- 105 metadata records with strictly increasing expiresAt. -/
def meta105 : List (String × MetaRec) :=
  (List.range 105).map (fun i => (ckey i, ⟨i, 0⟩))

/-- A persistent cache tracking 105 metadata records (more than
MAX_ENTRIES), with matching value entries. -/
def pc105 : PersistentCache Nat :=
  ⟨(List.range 105).map (fun i => (ckey i, ⟨some i, i, 0⟩)), meta105, fun _ => none, 0⟩

/-! ## Association-list lemmas -/

theorem mapLookup_mapSet_self {β : Type} (k : String) (v : β) (l : List (String × β)) :
    mapLookup k (mapSet k v l) = some v := by
  induction l with
  | nil => simp [mapSet, mapLookup]
  | cons p rest ih =>
    obtain ⟨k2, v2⟩ := p
    by_cases h : k2 = k
    · simp [mapSet, h, mapLookup]
    · simp [mapSet, h, mapLookup, ih]

theorem mapLookup_filter_keyPred {β : Type} (P : String → Prop) [DecidablePred P]
    (k : String) (l : List (String × β)) :
    mapLookup k (l.filter (fun p => P p.1)) = if P k then mapLookup k l else none := by
  induction l with
  | nil => simp [mapLookup]
  | cons p rest ih =>
    obtain ⟨k2, v2⟩ := p
    by_cases hp : P k2
    · by_cases hk : k2 = k
      · subst hk
        simp [mapLookup, hp, List.filter_cons]
      · simp [mapLookup, hp, hk, List.filter_cons, ih]
    · by_cases hk : k2 = k
      · subst hk
        simp [mapLookup, hp, List.filter_cons, ih]
      · simp [mapLookup, hp, hk, List.filter_cons, ih]

theorem mapErase_of_not_mem {β : Type} (k : String) (l : List (String × β))
    (h : ¬ k ∈ l.map Prod.fst) : mapErase k l = l := by
  induction l with
  | nil => rfl
  | cons p rest ih =>
    simp only [List.map_cons, List.mem_cons, not_or] at h
    have h1 : p.1 ≠ k := fun he => h.1 he.symm
    have h2 := ih h.2
    simp only [mapErase] at h2 ⊢
    simp [List.filter_cons, h1, h2]
    intro a b hab
    have h3 := List.filter_eq_self.mp h2 (a, b) hab
    simpa using h3

theorem mapSet_of_not_mem {β : Type} (k : String) (v : β) (l : List (String × β))
    (h : ¬ k ∈ l.map Prod.fst) : mapSet k v l = l ++ [(k, v)] := by
  induction l with
  | nil => rfl
  | cons p rest ih =>
    simp only [List.map_cons, List.mem_cons, not_or] at h
    simp [mapSet, Ne.symm h.1, ih h.2]

theorem mapSet_keys_of_mem {β : Type} (k : String) (v : β) (l : List (String × β))
    (h : k ∈ l.map Prod.fst) : (mapSet k v l).map Prod.fst = l.map Prod.fst := by
  induction l with
  | nil => simp at h
  | cons p rest ih =>
    by_cases hk : p.1 = k
    · obtain ⟨k2, v2⟩ := p
      simp at hk
      subst hk
      simp [mapSet]
    · obtain ⟨k2, v2⟩ := p
      simp at hk
      simp only [List.map_cons, List.mem_cons] at h
      rcases h with h | h
      · exact absurd h.symm hk
      · simp [mapSet, hk, ih h]

/-! ## Retry loop lemmas and claims C7, C8 -/

theorem retryGo_spec {α ε : Type} (op : Nat → Outcome α ε) (cfg : RetryConfig ε)
    (rand : Nat → ℚ) :
    ∀ (r attempt : Nat) (lastError : Option ε) (total : ℚ), 1 ≤ r →
      (attempt + 1 ≤ (retryGo op cfg rand attempt r lastError total).invocations ∧
        (retryGo op cfg rand attempt r lastError total).invocations ≤ attempt + r) ∧
      (retryGo op cfg rand attempt r lastError total).outcome ≠ .err none ∧
      (∀ e, (retryGo op cfg rand attempt r lastError total).outcome = .err (some e) →
        op ((retryGo op cfg rand attempt r lastError total).invocations - 1) = .err e) ∧
      (∀ a, (retryGo op cfg rand attempt r lastError total).outcome = .ok a →
        op ((retryGo op cfg rand attempt r lastError total).invocations - 1) = .ok a) := by
  intro r
  induction r with
  | zero => intro attempt lastError total h; exact absurd h (by omega)
  | succ r ih =>
    intro attempt lastError total _
    rcases hop : op attempt with a | e
    · simp only [retryGo, hop]
      refine ⟨⟨le_refl _, by omega⟩, by simp, ?_, ?_⟩
      · intro e2 he; cases he
      · intro a2 ha
        injection ha with ha2
        subst ha2
        simpa using hop
    · by_cases hr : r = 0
      · subst hr
        simp only [retryGo, hop, eq_self_iff_true, if_true]
        refine ⟨⟨le_refl _, by omega⟩, by simp, ?_, ?_⟩
        · intro e2 he
          injection he with he2
          injection he2 with he3
          subst he3
          simpa using hop
        · intro a2 ha; cases ha
      · by_cases hcond : cfg.retryCondition e
        · have hr1 : 1 ≤ r := by omega
          have hrec := ih (attempt + 1) (some e)
            (total + addJitter (calculateDelay attempt cfg.baseDelay cfg.backoffFactor cfg.maxDelay)
              (1 / 10) (rand attempt)) hr1
          simp only [retryGo, hop, if_neg hr, if_pos hcond]
          exact ⟨⟨by omega, by omega⟩, hrec.2.1, hrec.2.2.1, hrec.2.2.2⟩
        · simp only [retryGo, hop, if_neg hr, if_neg hcond]
          refine ⟨⟨le_refl _, by omega⟩, by simp, ?_, ?_⟩
          · intro e2 he
            injection he with he2
            injection he2 with he3
            subst he3
            simpa using hop
          · intro a2 ha; cases ha

/-- C8: retryWithBackoff with maxAttempts at least 1 invokes the
operation at least once and at most maxAttempts times, and when the run
settles with an error that error is exactly the one observed on the
final attempt made (it is in particular never the uninitialized
lastError). -/
theorem retryWithBackoff_attempt_bound {α ε : Type} (op : Nat → Outcome α ε)
    (cfg : RetryConfig ε) (rand : Nat → ℚ) (hmax : 1 ≤ cfg.maxAttempts) :
    1 ≤ (retryWithBackoff op cfg rand).invocations ∧
    (retryWithBackoff op cfg rand).invocations ≤ cfg.maxAttempts ∧
    (retryWithBackoff op cfg rand).outcome ≠ .err none ∧
    (∀ e, (retryWithBackoff op cfg rand).outcome = .err (some e) →
      op ((retryWithBackoff op cfg rand).invocations - 1) = .err e) := by
  have h := retryGo_spec op cfg rand cfg.maxAttempts 0 none 0 hmax
  simp only [retryWithBackoff]
  exact ⟨h.1.1, by simpa using h.1.2, h.2.1, h.2.2.1⟩

/-- C8 witness: an always-failing operation retried under cfgW
(3 attempts, codes below 3 retryable) obeys the attempt bound and
propagates the error of the final attempt. -/
theorem retryWithBackoff_attempt_bound_witness :
    1 ≤ (retryWithBackoff (fun n => Outcome.err n : Nat → Outcome Nat Nat) cfgW
      (fun _ => 0)).invocations ∧
    (retryWithBackoff (fun n => Outcome.err n : Nat → Outcome Nat Nat) cfgW
      (fun _ => 0)).invocations ≤ cfgW.maxAttempts ∧
    (retryWithBackoff (fun n => Outcome.err n : Nat → Outcome Nat Nat) cfgW
      (fun _ => 0)).outcome ≠ .err none ∧
    (∀ e, (retryWithBackoff (fun n => Outcome.err n : Nat → Outcome Nat Nat) cfgW
        (fun _ => 0)).outcome = .err (some e) →
      (fun n => Outcome.err n : Nat → Outcome Nat Nat)
        ((retryWithBackoff (fun n => Outcome.err n : Nat → Outcome Nat Nat) cfgW
          (fun _ => 0)).invocations - 1) = .err e) :=
  retryWithBackoff_attempt_bound _ cfgW _ (by decide)

/-- C7: when the first attempt fails with a non-retryable error and the
attempt budget is not yet exhausted, retryWithBackoff stops at once:
one invocation, zero accumulated backoff delay, and that same error
propagated. -/
theorem retryWithBackoff_nonretryable_stops {α ε : Type} (op : Nat → Outcome α ε)
    (cfg : RetryConfig ε) (rand : Nat → ℚ) (e : ε)
    (hmax : 2 ≤ cfg.maxAttempts) (hop : op 0 = .err e)
    (hcond : cfg.retryCondition e = false) :
    retryWithBackoff op cfg rand = ⟨.err (some e), 1, 0⟩ := by
  obtain ⟨k, hk⟩ : ∃ k, cfg.maxAttempts = k + 2 := ⟨cfg.maxAttempts - 2, by omega⟩
  simp [retryWithBackoff, hk, retryGo, hop, hcond]

/-- C7 witness: error code 7 is non-retryable under cfgW, so the run
stops after one invocation with no delay. -/
theorem retryWithBackoff_nonretryable_stops_witness :
    retryWithBackoff (fun _ => Outcome.err 7 : Nat → Outcome Nat Nat) cfgW (fun _ => 0)
      = ⟨.err (some 7), 1, 0⟩ :=
  retryWithBackoff_nonretryable_stops _ cfgW _ 7 (by decide) rfl (by decide)

/-! ## CircuitBreaker claim C1 -/

/-- C1 (amended): in HALF_OPEN a failing execute re-throws the error,
resets lastFailureTime to now and increments failureCount, but it
transitions to OPEN only when the incremented failureCount reaches
failureThreshold; with no preceding HALF_OPEN success the count carried
over from the OPEN episode makes that hold, while any HALF_OPEN success
resets the count to 0, after which (for failureThreshold above 1) a
failure leaves the breaker HALF_OPEN. -/
theorem breaker_halfOpen_failure {α ε : Type} (cb : CircuitBreaker) (now : Nat) (e : ε)
    (h : cb.state = .halfOpen) :
    (cb.execute now (Outcome.err e : Outcome α ε)).1 = .err e ∧
    (cb.execute now (Outcome.err e : Outcome α ε)).2.lastFailureTime = some now ∧
    (cb.execute now (Outcome.err e : Outcome α ε)).2.failureCount = cb.failureCount + 1 ∧
    ((cb.execute now (Outcome.err e : Outcome α ε)).2.state = .opened ↔
      cb.failureThreshold ≤ cb.failureCount + 1) := by
  have hne : ¬ cb.state = .opened := by rw [h]; intro hco; cases hco
  simp only [CircuitBreaker.execute, if_neg hne, CircuitBreaker.attempt,
    CircuitBreaker.onFailure]
  by_cases hth : cb.failureCount + 1 ≥ cb.failureThreshold
  · simp [hth]
  · simp only [ge_iff_le] at hth
    simp [hth, h]

/-- C1 counterexample: a reachable HALF_OPEN breaker (five failures,
then a success after the reset timeout) stays HALF_OPEN on the next
failure, because the success reset failureCount below the threshold;
the claim requires OPEN. -/
theorem breaker_halfOpen_failure_cex :
    cbHalfOpenAfterSuccess.state = .halfOpen ∧
    (cbHalfOpenAfterSuccess.execute 70001 (Outcome.err 0 : Outcome Unit Nat)).2.state
      ≠ .opened := by
  decide

/-- C1 witness: the amended statement evaluated at the reachable
HALF_OPEN breaker above. -/
theorem breaker_halfOpen_failure_witness :
    (cbHalfOpenAfterSuccess.execute 70001 (Outcome.err 0 : Outcome Unit Nat)).1
      = .err 0 ∧
    (cbHalfOpenAfterSuccess.execute 70001 (Outcome.err 0 : Outcome Unit Nat)).2.lastFailureTime
      = some 70001 ∧
    (cbHalfOpenAfterSuccess.execute 70001 (Outcome.err 0 : Outcome Unit Nat)).2.failureCount
      = cbHalfOpenAfterSuccess.failureCount + 1 ∧
    ((cbHalfOpenAfterSuccess.execute 70001 (Outcome.err 0 : Outcome Unit Nat)).2.state
        = .opened ↔
      cbHalfOpenAfterSuccess.failureThreshold ≤ cbHalfOpenAfterSuccess.failureCount + 1) :=
  breaker_halfOpen_failure cbHalfOpenAfterSuccess 70001 0 (by decide)

/-! ## MemoryCache claim C2 -/

theorem mapErase_cons_self {β : Type} (k : String) (v : β) (l : List (String × β)) :
    mapErase k ((k, v) :: l) = mapErase k l := by
  simp [mapErase, List.filter_cons]

theorem memoryCache_set_full_new {α : Type} (mc : MemoryCache α) (now : Nat) (key : String)
    (d : Option α) (ttl : Nat) (k0 : String) (e0 : CacheItem α)
    (rest : List (String × CacheItem α))
    (hc : mc.cache = (k0, e0) :: rest)
    (hlen : mc.cache.length = mc.maxSize)
    (hnodup : (mc.cache.map Prod.fst).Nodup)
    (hnew : ¬ key ∈ mc.cache.map Prod.fst) :
    (mc.set now key d ttl).cache.map Prod.fst = rest.map Prod.fst ++ [key] := by
  rw [hc] at hnodup hnew
  simp only [List.map_cons, List.nodup_cons] at hnodup
  simp only [List.map_cons, List.mem_cons, not_or] at hnew
  have hge2 : ((k0, e0) :: rest).length ≥ mc.maxSize := by rw [← hc]; omega
  simp only [MemoryCache.set, hc, if_pos hge2, mapErase_cons_self,
    mapErase_of_not_mem _ _ hnodup.1]
  rw [mapSet_of_not_mem _ _ _ hnew.2]
  simp

theorem memoryCache_set_full_existing {α : Type} (mc : MemoryCache α) (now : Nat)
    (key : String) (d : Option α) (ttl : Nat) (k0 : String) (e0 : CacheItem α)
    (rest : List (String × CacheItem α))
    (hc : mc.cache = (k0, e0) :: rest)
    (hlen : mc.cache.length = mc.maxSize)
    (hnodup : (mc.cache.map Prod.fst).Nodup)
    (hmem : key ∈ rest.map Prod.fst) :
    (mc.set now key d ttl).cache.map Prod.fst = rest.map Prod.fst := by
  rw [hc] at hnodup
  simp only [List.map_cons, List.nodup_cons] at hnodup
  have hge2 : ((k0, e0) :: rest).length ≥ mc.maxSize := by rw [← hc]; omega
  simp only [MemoryCache.set, hc, if_pos hge2, mapErase_cons_self,
    mapErase_of_not_mem _ _ hnodup.1]
  rw [mapSet_keys_of_mem _ _ _ hmem]

theorem memoryCache_fill {α : Type} (d : Option α) (ttl now : Nat) :
    ∀ (ks : List String) (mc : MemoryCache α),
      (mc.cache.map Prod.fst ++ ks).Nodup →
      mc.cache.length + ks.length ≤ mc.maxSize →
      ((ks.foldl (fun m k => m.set now k d ttl) mc).cache.map Prod.fst
          = mc.cache.map Prod.fst ++ ks) ∧
      (ks.foldl (fun m k => m.set now k d ttl) mc).maxSize = mc.maxSize := by
  intro ks
  induction ks with
  | nil => intro mc _ _; simp
  | cons k ks ih =>
    intro mc hnd hlen
    have hlt : ¬ mc.cache.length ≥ mc.maxSize := by
      simp only [List.length_cons] at hlen
      omega
    have hknotin : ¬ k ∈ mc.cache.map Prod.fst := fun hk =>
      (List.disjoint_of_nodup_append hnd) hk (List.mem_cons_self k ks)
    have hset : (mc.set now k d ttl).cache
        = mc.cache ++ [(k, ⟨d, now + ttl, now⟩)] := by
      simp only [MemoryCache.set, if_neg hlt]
      exact mapSet_of_not_mem _ _ _ hknotin
    have hmax : (mc.set now k d ttl).maxSize = mc.maxSize := by
      simp only [MemoryCache.set, if_neg hlt]
    have hnd2 : ((mc.set now k d ttl).cache.map Prod.fst ++ ks).Nodup := by
      rw [hset]
      simpa [List.append_assoc] using hnd
    have hlen2 : (mc.set now k d ttl).cache.length + ks.length
        ≤ (mc.set now k d ttl).maxSize := by
      rw [hset, hmax]
      simp only [List.length_append, List.length_cons] at hlen ⊢
      simp
      omega
    obtain ⟨ih1, ih2⟩ := ih (mc.set now k d ttl) hnd2 hlen2
    refine ⟨?_, by simpa [hmax] using ih2⟩
    simp only [List.foldl_cons, ih1, hset]
    simp [List.append_assoc]

/-- C2 (amended): with the cache at capacity, set on an absent key
evicts exactly the iteration-head entry and appends the new entry at
the most-recently-used end, and inserting maxSize + 1 distinct keys
into an empty cache (maxSize at least 1) retains exactly the last
maxSize of them; but set on an already-present non-head key at
capacity ALSO evicts the iteration head (the source checks only the
size, not whether the key is new), so such a set does evict another
entry. -/
theorem memoryCache_lru_eviction {α : Type} :
    (∀ (mc : MemoryCache α) (now : Nat) (key : String) (d : Option α) (ttl : Nat)
        (k0 : String) (e0 : CacheItem α) (rest : List (String × CacheItem α)),
        mc.cache = (k0, e0) :: rest → mc.cache.length = mc.maxSize →
        (mc.cache.map Prod.fst).Nodup → ¬ key ∈ mc.cache.map Prod.fst →
        (mc.set now key d ttl).cache.map Prod.fst = rest.map Prod.fst ++ [key]) ∧
    (∀ (mc : MemoryCache α) (now : Nat) (key : String) (d : Option α) (ttl : Nat)
        (k0 : String) (e0 : CacheItem α) (rest : List (String × CacheItem α)),
        mc.cache = (k0, e0) :: rest → mc.cache.length = mc.maxSize →
        (mc.cache.map Prod.fst).Nodup → key ∈ rest.map Prod.fst →
        (mc.set now key d ttl).cache.map Prod.fst = rest.map Prod.fst) ∧
    (∀ (ks : List String) (maxSize now : Nat) (d : Option α) (ttl : Nat),
        ks.Nodup → ks.length = maxSize + 1 → 1 ≤ maxSize →
        ((ks.foldl (fun m k => m.set now k d ttl)
          (⟨[], maxSize⟩ : MemoryCache α)).cache.map Prod.fst) = ks.tail) := by
  refine ⟨memoryCache_set_full_new, memoryCache_set_full_existing, ?_⟩
  intro ks maxSize now d ttl hnd hlen hm
  obtain (rfl | ⟨l, x, rfl⟩) := ks.eq_nil_or_concat
  · simp at hlen
  · simp only [List.concat_eq_append] at hnd hlen ⊢
    have hllen : l.length = maxSize := by
      simpa using hlen
    have hlnodup : l.Nodup := hnd.of_append_left
    obtain ⟨hfill, hfmax⟩ := memoryCache_fill d ttl now l (⟨[], maxSize⟩ : MemoryCache α)
      (by simpa using hlnodup) (by simp [hllen])
    set mcl := l.foldl (fun m k => m.set now k d ttl) (⟨[], maxSize⟩ : MemoryCache α) with hmcl
    have hxl : ¬ x ∈ l := fun hx =>
      (List.disjoint_of_nodup_append hnd) hx (List.mem_cons_self x [])
    obtain ⟨k1, l', rfl⟩ : ∃ k1 l', l = k1 :: l' := by
      cases l with
      | nil => simp at hllen; omega
      | cons a b => exact ⟨a, b, rfl⟩
    cases hcache : mcl.cache with
    | nil => rw [hcache] at hfill; simp at hfill
    | cons p rest =>
      rw [hcache] at hfill
      simp only [List.map_cons, List.map_nil, List.nil_append, List.cons.injEq] at hfill
      have hkeys : mcl.cache.map Prod.fst = k1 :: l' := by
        rw [hcache]
        simp only [List.map_cons]
        rw [hfill.1, hfill.2]
      have hnewkey : ¬ x ∈ mcl.cache.map Prod.fst := by
        rw [hkeys]; exact hxl
      have hlen2 : mcl.cache.length = mcl.maxSize := by
        have hl := congrArg List.length hkeys
        simp only [List.length_map, List.length_cons] at hl
        rw [hl, hfmax]
        simpa using hllen
      have hnodup2 : (mcl.cache.map Prod.fst).Nodup := by
        rw [hkeys]; exact hlnodup
      have hstep := memoryCache_set_full_new mcl now x d ttl p.1 p.2 rest
        (by rw [hcache]) hlen2 hnodup2 hnewkey
      rw [List.foldl_append]
      simp only [List.foldl_cons, List.foldl_nil, ← hmcl]
      rw [hstep, hfill.2]
      simp

/-- C2 counterexample: mc2 holds exactly maxSize = 2 entries with keys
"a" and "b"; setting the already-present key "b" nevertheless evicts
the other entry "a", contradicting the claim that a set on a present
key evicts no other entry. -/
theorem memoryCache_lru_eviction_cex :
    "a" ∈ mc2.cache.map Prod.fst ∧ "b" ∈ mc2.cache.map Prod.fst ∧
    mc2.cache.length = mc2.maxSize ∧
    ¬ "a" ∈ ((mc2.set 0 "b" (some 3) 10).cache.map Prod.fst) := by
  decide

/-- C2 witness: the amended statement evaluated at mc2 with the fresh
key "c": the head "a" is evicted and "c" lands at the end. -/
theorem memoryCache_lru_eviction_witness :
    (mc2.set 0 "c" (some 3) 10).cache.map Prod.fst
      = [("b", (⟨some 2, 100, 0⟩ : CacheItem Nat))].map Prod.fst ++ ["c"] :=
  memoryCache_lru_eviction.1 mc2 0 "c" (some 3) 10 "a" ⟨some 1, 100, 0⟩ _ rfl rfl
    (by decide) (by decide)

/-! ## withCache claim C3 -/

theorem memoryCache_set_lookup {α : Type} (mc : MemoryCache α) (now : Nat) (key : String)
    (d : Option α) (ttl : Nat) :
    mapLookup key (mc.set now key d ttl).cache = some ⟨d, now + ttl, now⟩ := by
  unfold MemoryCache.set
  exact mapLookup_mapSet_self key _ _

theorem memoryCache_set_get {α : Type} (mc : MemoryCache α) (now1 now2 : Nat) (key : String)
    (d : Option α) (ttl : Nat) (h : now2 ≤ now1 + ttl) :
    ((mc.set now1 key d ttl).get now2 key).1 = d := by
  have hne : ¬ now2 > now1 + ttl := by omega
  unfold MemoryCache.get
  rw [memoryCache_set_lookup]
  simp [hne]

theorem hybridCache_get_memHit {α : Type} (hc : HybridCache α) (now : Nat) (key : String)
    (v : α) (h : (hc.memoryCache.get now key).1 = some v) :
    (hc.get now key).1 = some v ∧
    (hc.get now key).2.stats.hits = hc.stats.hits + 1 := by
  unfold HybridCache.get
  rcases hget : hc.memoryCache.get now key with ⟨d, mem⟩
  rw [hget] at h
  simp only at h
  subst h
  simp

/-- C3 (amended): a wrapped operation whose first call misses and
resolves to a non-null value is not invoked again by a second call with
the same key made within min(ttl, 5 minutes) of the first — across the
two calls the underlying operation runs exactly once and the second
call returns the cached value; and a failing operation has its error
re-thrown unchanged with nothing written to the cache (the state stays
exactly the post-lookup state).  The claim as frozen fails for an
operation resolving to null, which is cached but reads back as a miss
(see the counterexample and C10). -/
theorem withCache_single_invocation {α ε : Type} :
    (∀ (jl : CacheItem α → Nat) (hc : HybridCache α) (now1 now2 : Nat) (key : String)
        (ttl : Nat) (v : α) (op2 : Outcome (Option α) ε),
        (hc.get now1 key).1 = none → now1 ≤ now2 → now2 ≤ now1 + min ttl (5 * 60 * 1000) →
        (withCacheCall jl hc now1 key ttl (.ok (some v) : Outcome (Option α) ε)).2.2
          = true ∧
        (withCacheCall jl (withCacheCall jl hc now1 key ttl
            (.ok (some v) : Outcome (Option α) ε)).2.1 now2 key ttl op2).1
          = .ok (some v) ∧
        (withCacheCall jl (withCacheCall jl hc now1 key ttl
            (.ok (some v) : Outcome (Option α) ε)).2.1 now2 key ttl op2).2.2 = false) ∧
    (∀ (jl : CacheItem α → Nat) (hc : HybridCache α) (now : Nat) (key : String)
        (ttl : Nat) (e : ε),
        (hc.get now key).1 = none →
        withCacheCall jl hc now key ttl (.err e : Outcome (Option α) ε)
          = (.err e, (hc.get now key).2, true)) := by
  constructor
  · intro jl hc now1 now2 key ttl v op2 hmiss h12 h2
    rcases hget1 : hc.get now1 key with ⟨d1, hc1⟩
    rw [hget1] at hmiss
    simp only at hmiss
    subst hmiss
    have hcall1 : withCacheCall jl hc now1 key ttl (.ok (some v) : Outcome (Option α) ε)
        = (.ok (some v), HybridCache.set jl hc1 now1 key (some v) ttl, true) := by
      unfold withCacheCall
      rw [hget1]
    rw [hcall1]
    refine ⟨rfl, ?_⟩
    set st1 := HybridCache.set jl hc1 now1 key (some v) ttl with hst1
    have hmem : (st1.memoryCache.get now2 key).1 = some v := by
      have : st1.memoryCache
          = hc1.memoryCache.set now1 key (some v) (min ttl (5 * 60 * 1000)) := rfl
      rw [this]
      exact memoryCache_set_get _ _ _ _ _ _ h2
    obtain ⟨hres, _⟩ := hybridCache_get_memHit st1 now2 key v hmem
    rcases hget2 : st1.get now2 key with ⟨d2, hc2⟩
    rw [hget2] at hres
    simp only at hres
    subst hres
    have hcall2 : withCacheCall jl st1 now2 key ttl op2
        = (.ok (some v), hc2, false) := by
      unfold withCacheCall
      rw [hget2]
    simp [hcall2]
  · intro jl hc now key ttl e hmiss
    rcases hget : hc.get now key with ⟨d, hc1⟩
    rw [hget] at hmiss
    simp only at hmiss
    subst hmiss
    unfold withCacheCall
    rw [hget]

/-- C3 counterexample: an operation resolving to null is cached, but
the cached null reads back as a miss, so the second identical call
within the TTL invokes the underlying operation again: two invocations
where the claim requires exactly one. -/
theorem withCache_single_invocation_cex :
    (withCacheCall jlen0 hcEmpty 0 "k" 1000 (.ok none : Outcome (Option Nat) Nat)).2.2
      = true ∧
    (withCacheCall jlen0
        (withCacheCall jlen0 hcEmpty 0 "k" 1000 (.ok none : Outcome (Option Nat) Nat)).2.1
        0 "k" 1000 (.ok none : Outcome (Option Nat) Nat)).2.2 = true := by
  decide

/-- C3 witness: the amended statement at the empty cache, a first call
resolving to 7 at t = 0 and a second call at t = 500 within the
min(1000, 5 minutes) window. -/
theorem withCache_single_invocation_witness :
    (withCacheCall jlen0 hcEmpty 0 "k" 1000 (.ok (some 7) : Outcome (Option Nat) Nat)).2.2
      = true ∧
    (withCacheCall jlen0
        (withCacheCall jlen0 hcEmpty 0 "k" 1000
          (.ok (some 7) : Outcome (Option Nat) Nat)).2.1
        500 "k" 1000 (.ok (some 8) : Outcome (Option Nat) Nat)).1 = .ok (some 7) ∧
    (withCacheCall jlen0
        (withCacheCall jlen0 hcEmpty 0 "k" 1000
          (.ok (some 7) : Outcome (Option Nat) Nat)).2.1
        500 "k" 1000 (.ok (some 8) : Outcome (Option Nat) Nat)).2.2 = false :=
  withCache_single_invocation.1 jlen0 hcEmpty 0 500 "k" 1000 7 (.ok (some 8))
    (by decide) (by decide) (by decide)

/-! ## PersistentCache claims C4 and C5 -/

/-- C4: the code evaluated at the failing input.  On an empty store, a
set whose first write throws QuotaExceededError and whose cleanup-retry
succeeds leaves the value stored under "k" while the metadata index
stays empty: the key has no metadata record after a clean run,
violating the claimed invariant (and such an orphan can never be
removed by cleanup or clear, which walk the metadata). -/
theorem persistentCache_metadata_desync :
    (PersistentCache.set jlen0 pcQuota 0 "k" (some 1) 100).toOption.map
      (fun pc => (pc.vals.map Prod.fst, pc.meta)) = some (["k"], []) := by
  decide

/-- C5: PersistentCache.set never propagates a write error — every run
returns normally; and when the first write fails with
QuotaExceededError, a full cleanup is run, the write is retried exactly
once (two raw write attempts in total), and a second failure is
dropped silently, leaving the value simply absent. -/
theorem persistentCache_set_soft_fail {α : Type} :
    (∀ (jl : CacheItem α → Nat) (pc : PersistentCache α) (now : Nat) (key : String)
        (d : Option α) (ttl : Nat),
        ∃ pc2, PersistentCache.set jl pc now key d ttl = .ok pc2) ∧
    (∀ (jl : CacheItem α → Nat) (pc : PersistentCache α) (now : Nat) (key : String)
        (d : Option α) (ttl : Nat),
        pc.faults pc.tick = some "QuotaExceededError" →
        ∃ pc2, PersistentCache.set jl pc now key d ttl = .ok pc2 ∧
          pc2.tick = pc.tick + 2 ∧
          pc2.meta = (pc.cleanup now).meta ∧
          pc2.vals = (if pc.faults (pc.tick + 1) = none
            then mapSet key ⟨d, now + ttl, now⟩ (pc.cleanup now).vals
            else (pc.cleanup now).vals)) := by
  constructor
  · intro jl pc now key d ttl
    simp only [PersistentCache.set]
    rcases h0 : pc.rawSetItem key ⟨d, now + ttl, now⟩ with ⟨e1, pcA⟩
    rcases e1 with _ | name
    · exact ⟨_, rfl⟩
    · by_cases hq : name = "QuotaExceededError"
      · subst hq
        simp only [if_pos rfl]
        rcases h1 : (pcA.cleanup now).rawSetItem key ⟨d, now + ttl, now⟩ with ⟨e2, pcB⟩
        rcases e2 with _ | nm
        · exact ⟨_, rfl⟩
        · exact ⟨_, rfl⟩
      · simp only [if_neg hq]
        exact ⟨_, rfl⟩
  · intro jl pc now key d ttl hq
    have h0 : pc.rawSetItem key ⟨d, now + ttl, now⟩
        = (some "QuotaExceededError", { pc with tick := pc.tick + 1 }) := by
      simp only [PersistentCache.rawSetItem, hq]
    simp only [PersistentCache.set, h0, if_pos rfl]
    rcases h1 : pc.faults (pc.tick + 1) with _ | nm
    · have h2 : (PersistentCache.cleanup { pc with tick := pc.tick + 1 } now).rawSetItem
          key ⟨d, now + ttl, now⟩
          = (none, { PersistentCache.cleanup { pc with tick := pc.tick + 1 } now with
              vals := mapSet key ⟨d, now + ttl, now⟩
                (PersistentCache.cleanup { pc with tick := pc.tick + 1 } now).vals,
              tick := pc.tick + 2 }) := by
        simp only [PersistentCache.rawSetItem, PersistentCache.cleanup, h1]
      rw [h2]
      refine ⟨_, rfl, rfl, ?_, ?_⟩
      · simp [PersistentCache.cleanup]
      · simp [PersistentCache.cleanup]
    · have h2 : (PersistentCache.cleanup { pc with tick := pc.tick + 1 } now).rawSetItem
          key ⟨d, now + ttl, now⟩
          = (some nm, { PersistentCache.cleanup { pc with tick := pc.tick + 1 } now with
              tick := pc.tick + 2 }) := by
        simp only [PersistentCache.rawSetItem, PersistentCache.cleanup, h1]
      rw [h2]
      refine ⟨_, rfl, rfl, ?_, ?_⟩
      · simp [PersistentCache.cleanup]
      · simp [PersistentCache.cleanup]

/-- C5 witness: the soft-fail statement evaluated at pcQuota, whose
first write faults with QuotaExceededError and whose retry succeeds. -/
theorem persistentCache_set_soft_fail_witness :
    ∃ pc2, PersistentCache.set jlen0 pcQuota 0 "k" (some 1) 100 = .ok pc2 ∧
      pc2.tick = pcQuota.tick + 2 ∧
      pc2.meta = (pcQuota.cleanup 0).meta ∧
      pc2.vals = (if pcQuota.faults (pcQuota.tick + 1) = none
        then mapSet "k" ⟨some 1, 0 + 100, 0⟩ (pcQuota.cleanup 0).vals
        else (pcQuota.cleanup 0).vals) :=
  (persistentCache_set_soft_fail (α := Nat)).2 jlen0 pcQuota 0 "k" (some 1) 100 (by decide)

/-! ## PersistentCache claim C6 -/

theorem filter_mapErase {β : Type} (k : String) (ks : List String) (l : List (String × β)) :
    (mapErase k l).filter (fun q => ¬ q.1 ∈ ks) = l.filter (fun q => ¬ q.1 ∈ k :: ks) := by
  unfold mapErase
  rw [List.filter_filter]
  refine List.filter_congr ?_
  intro a _
  by_cases h1 : a.1 = k
  · simp [h1]
  · by_cases h2 : a.1 ∈ ks
    · simp [h1, h2]
    · simp [h1, h2]

theorem foldl_delete_eq_filter {α : Type} (L : List (String × MetaRec)) :
    ∀ (pc : PersistentCache α),
      (L.foldl (fun acc p => acc.delete p.1) pc).vals
        = pc.vals.filter (fun q => ¬ q.1 ∈ L.map Prod.fst) ∧
      (L.foldl (fun acc p => acc.delete p.1) pc).meta
        = pc.meta.filter (fun q => ¬ q.1 ∈ L.map Prod.fst) := by
  induction L with
  | nil =>
    intro pc
    constructor
    · exact (List.filter_eq_self.mpr (by simp)).symm
    · exact (List.filter_eq_self.mpr (by simp)).symm
  | cons p rest ih =>
    intro pc
    obtain ⟨ihv, ihm⟩ := ih (pc.delete p.1)
    constructor
    · rw [List.foldl_cons, ihv]
      show (mapErase p.1 pc.vals).filter _ = _
      rw [filter_mapErase]
      rfl
    · rw [List.foldl_cons, ihm]
      show (mapErase p.1 pc.meta).filter _ = _
      rw [filter_mapErase]
      rfl

theorem insertByExpiry_perm (x : String × MetaRec) (l : List (String × MetaRec)) :
    (insertByExpiry x l).Perm (x :: l) := by
  induction l with
  | nil => exact List.Perm.refl _
  | cons y ys ih =>
    simp only [insertByExpiry]
    by_cases h : x.2.expiresAt ≤ y.2.expiresAt
    · rw [if_pos h]
    · rw [if_neg h]
      exact (ih.cons y).trans (List.Perm.swap x y ys)

theorem sortByExpiry_perm (l : List (String × MetaRec)) : (sortByExpiry l).Perm l := by
  induction l with
  | nil => exact List.Perm.refl _
  | cons x xs ih =>
    have hx : sortByExpiry (x :: xs) = insertByExpiry x (sortByExpiry xs) := rfl
    rw [hx]
    exact (insertByExpiry_perm x (sortByExpiry xs)).trans (ih.cons x)

/-- C6 (amended): when the metadata index tracks more than maxEntries
keys, _cleanupIfNeeded deletes exactly the first
floor(maxEntries * 0.2) = 20 records of the expiresAt-ascending order
— 20 percent of maxEntries, not of the record count — from both the
metadata and the durable medium, regardless of expiry, leaving
count - 20 records; the two readings coincide only near the
maxEntries + 1 trigger point. -/
theorem persistentCache_overflow_eviction {α : Type} (pc : PersistentCache α)
    (hnodup : (pc.meta.map Prod.fst).Nodup)
    (hlen : pc.meta.length > CACHE_MAX_ENTRIES) :
    pc.cleanupIfNeeded.meta
        = pc.meta.filter
            (fun q => ¬ q.1 ∈ ((sortByExpiry pc.meta).take 20).map Prod.fst) ∧
    pc.cleanupIfNeeded.vals
        = pc.vals.filter
            (fun q => ¬ q.1 ∈ ((sortByExpiry pc.meta).take 20).map Prod.fst) ∧
    pc.cleanupIfNeeded.meta.length = pc.meta.length - 20 := by
  have h20 : CACHE_MAX_ENTRIES * 2 / 10 = 20 := rfl
  have hcl : pc.cleanupIfNeeded
      = ((sortByExpiry pc.meta).take 20).foldl (fun acc p => acc.delete p.1) pc := by
    unfold PersistentCache.cleanupIfNeeded
    rw [if_pos hlen, h20]
  obtain ⟨hv, hm⟩ := foldl_delete_eq_filter ((sortByExpiry pc.meta).take 20) pc
  rw [hcl, hv, hm]
  refine ⟨rfl, rfl, ?_⟩
  have hperm : (sortByExpiry pc.meta).Perm pc.meta := sortByExpiry_perm _
  have hsplit : sortByExpiry pc.meta
      = (sortByExpiry pc.meta).take 20 ++ (sortByExpiry pc.meta).drop 20 :=
    (List.take_append_drop _ _).symm
  have hnodupS : ((sortByExpiry pc.meta).map Prod.fst).Nodup :=
    ((hperm.map Prod.fst).nodup_iff).mpr hnodup
  have hfperm := (hperm.filter
    (fun q => ¬ q.1 ∈ ((sortByExpiry pc.meta).take 20).map Prod.fst)).symm
  rw [hfperm.length_eq]
  rw [show ((sortByExpiry pc.meta).filter
      (fun q => ¬ q.1 ∈ ((sortByExpiry pc.meta).take 20).map Prod.fst))
    = (((sortByExpiry pc.meta).take 20 ++ (sortByExpiry pc.meta).drop 20).filter
      (fun q => ¬ q.1 ∈ ((sortByExpiry pc.meta).take 20).map Prod.fst)) from by
    rw [← hsplit]]
  rw [List.filter_append]
  have hdisjkeys : (((sortByExpiry pc.meta).take 20).map Prod.fst).Disjoint
      (((sortByExpiry pc.meta).drop 20).map Prod.fst) := by
    have hk : ((sortByExpiry pc.meta).map Prod.fst)
        = ((sortByExpiry pc.meta).take 20).map Prod.fst
          ++ ((sortByExpiry pc.meta).drop 20).map Prod.fst := by
      rw [show (sortByExpiry pc.meta).map Prod.fst
          = ((sortByExpiry pc.meta).take 20 ++ (sortByExpiry pc.meta).drop 20).map Prod.fst
        from by rw [← hsplit]]
      rw [List.map_append]
    rw [hk] at hnodupS
    exact List.disjoint_of_nodup_append hnodupS
  have h1 : ((sortByExpiry pc.meta).take 20).filter
      (fun q => ¬ q.1 ∈ ((sortByExpiry pc.meta).take 20).map Prod.fst) = [] := by
    rw [List.filter_eq_nil_iff]
    intro q hq
    have hmem2 : q.1 ∈ ((sortByExpiry pc.meta).map Prod.fst).take 20 := by
      rw [← List.map_take]
      exact List.mem_map_of_mem Prod.fst hq
    simp [hmem2]
  have h2 : ((sortByExpiry pc.meta).drop 20).filter
      (fun q => ¬ q.1 ∈ ((sortByExpiry pc.meta).take 20).map Prod.fst)
      = (sortByExpiry pc.meta).drop 20 := by
    rw [List.filter_eq_self]
    intro q hq
    have hnm : ¬ q.1 ∈ ((sortByExpiry pc.meta).take 20).map Prod.fst :=
      fun hmem => hdisjkeys hmem (List.mem_map_of_mem Prod.fst hq)
    have hnm2 : ¬ q.1 ∈ ((sortByExpiry pc.meta).map Prod.fst).take 20 := by
      rw [← List.map_take]
      exact hnm
    simp [hnm2]
  rw [h1, h2]
  have hlenS : (sortByExpiry pc.meta).length = pc.meta.length := hperm.length_eq
  simp only [List.nil_append, List.length_drop, hlenS]

/-- C6 counterexample: at 105 tracked records the code evicts
floor(maxEntries * 0.2) = 20 of them, leaving 85; evicting 20 percent
of the 105 records rounded down (21) would leave 84. -/
theorem persistentCache_overflow_eviction_cex :
    pc105.meta.length = 105 ∧
    pc105.cleanupIfNeeded.meta.length ≠ pc105.meta.length - pc105.meta.length / 5 := by
  decide

/-- C6 witness: the amended statement evaluated at the 105-record
store pc105. -/
theorem persistentCache_overflow_eviction_witness :
    pc105.cleanupIfNeeded.meta
        = pc105.meta.filter
            (fun q => ¬ q.1 ∈ ((sortByExpiry pc105.meta).take 20).map Prod.fst) ∧
    pc105.cleanupIfNeeded.vals
        = pc105.vals.filter
            (fun q => ¬ q.1 ∈ ((sortByExpiry pc105.meta).take 20).map Prod.fst) ∧
    pc105.cleanupIfNeeded.meta.length = pc105.meta.length - 20 :=
  persistentCache_overflow_eviction pc105 (by decide) (by decide)

/-! ## HybridCache claims C9 and C10 -/

/-- C9: a fast-tier miss with an unexpired non-null durable value
returns that value, increments hits (not misses), and writes the value
into the memory tier with the fixed 5-minute TTL so that a following
direct read of the fast tier at the same instant returns it; a
double miss increments misses and returns null. -/
theorem hybridCache_promotion {α : Type} :
    (∀ (hc : HybridCache α) (now : Nat) (key : String) (v : α) (item : CacheItem α),
        (hc.memoryCache.get now key).1 = none →
        mapLookup key hc.persistentCache.vals = some item →
        ¬ now > item.expiresAt → item.data = some v →
        (hc.get now key).1 = some v ∧
        (hc.get now key).2.stats.hits = hc.stats.hits + 1 ∧
        (hc.get now key).2.stats.misses = hc.stats.misses ∧
        ((hc.get now key).2.memoryCache.get now key).1 = some v) ∧
    (∀ (hc : HybridCache α) (now : Nat) (key : String),
        (hc.memoryCache.get now key).1 = none →
        (hc.persistentCache.get now key).1 = none →
        (hc.get now key).1 = none ∧
        (hc.get now key).2.stats.misses = hc.stats.misses + 1 ∧
        (hc.get now key).2.stats.hits = hc.stats.hits) := by
  constructor
  · intro hc now key v item hmem hlook hexp hdata
    have hpget : hc.persistentCache.get now key = (some v, hc.persistentCache) := by
      unfold PersistentCache.get
      rw [hlook]
      simp [hexp, hdata]
    rcases hmget : hc.memoryCache.get now key with ⟨d, mem⟩
    rw [hmget] at hmem
    simp only at hmem
    subst hmem
    have hget : hc.get now key = (some v,
        { memoryCache := mem.set now key (some v) (5 * 60 * 1000),
          persistentCache := hc.persistentCache,
          stats := { hc.stats with hits := hc.stats.hits + 1 } }) := by
      unfold HybridCache.get
      rw [hmget, hpget]
    rw [hget]
    exact ⟨rfl, rfl, rfl, memoryCache_set_get _ _ _ _ _ _ (by omega)⟩
  · intro hc now key hmem hpm
    rcases hmget : hc.memoryCache.get now key with ⟨d, mem⟩
    rw [hmget] at hmem
    simp only at hmem
    subst hmem
    rcases hpget : hc.persistentCache.get now key with ⟨p, pcc⟩
    rw [hpget] at hpm
    simp only at hpm
    subst hpm
    have hget : hc.get now key = (none,
        { memoryCache := mem, persistentCache := pcc,
          stats := { hc.stats with misses := hc.stats.misses + 1 } }) := by
      unfold HybridCache.get
      rw [hmget, hpget]
    rw [hget]
    exact ⟨rfl, rfl, rfl⟩

/-- C9 witness: the promotion statement evaluated at hcPromo, whose
memory tier is empty and whose durable tier holds 7 under "k". -/
theorem hybridCache_promotion_witness :
    (hcPromo.get 0 "k").1 = some 7 ∧
    (hcPromo.get 0 "k").2.stats.hits = hcPromo.stats.hits + 1 ∧
    (hcPromo.get 0 "k").2.stats.misses = hcPromo.stats.misses ∧
    ((hcPromo.get 0 "k").2.memoryCache.get 0 "k").1 = some 7 :=
  hybridCache_promotion.1 hcPromo 0 "k" 7 ⟨some 7, 100, 0⟩ (by decide) (by decide)
    (by decide) rfl

theorem memoryCache_set_null_get {α : Type} (mc : MemoryCache α) (now1 now2 ttl : Nat)
    (key : String) :
    ((mc.set now1 key none ttl).get now2 key).1 = none := by
  unfold MemoryCache.get
  rw [memoryCache_set_lookup]
  by_cases h : now2 > now1 + ttl
  · simp [h]
  · simp [h]

theorem persistentCache_set_nofault {α : Type} (jl : CacheItem α → Nat)
    (pc : PersistentCache α) (now : Nat) (key : String) (d : Option α) (ttl : Nat)
    (h0 : pc.faults pc.tick = none) :
    PersistentCache.set jl pc now key d ttl
      = .ok (PersistentCache.cleanupIfNeeded
          { pc with
            vals := mapSet key ⟨d, now + ttl, now⟩ pc.vals,
            meta := mapSet key ⟨now + ttl, jl ⟨d, now + ttl, now⟩⟩ pc.meta,
            tick := pc.tick + 1 }) := by
  have hraw : pc.rawSetItem key ⟨d, now + ttl, now⟩
      = (none,
        { pc with
          vals := mapSet key ⟨d, now + ttl, now⟩ pc.vals,
          tick := pc.tick + 1 }) := by
    simp only [PersistentCache.rawSetItem, h0]
  simp only [PersistentCache.set, hraw]

theorem mapLookup_filter_notMem {β : Type} (ks : List String) (k : String)
    (l : List (String × β)) :
    mapLookup k (l.filter (fun q => ¬ q.1 ∈ ks))
      = if k ∈ ks then none else mapLookup k l := by
  induction l with
  | nil => by_cases hk : k ∈ ks <;> simp [mapLookup, hk]
  | cons p rest ih =>
    simp only [decide_not] at ih
    by_cases hp : p.1 ∈ ks
    · by_cases hk : p.1 = k
      · subst hk
        simp [mapLookup, List.filter_cons, hp, ih]
      · simp [mapLookup, List.filter_cons, hp, hk, ih]
    · by_cases hk : p.1 = k
      · subst hk
        simp [mapLookup, List.filter_cons, hp, ih]
      · simp [mapLookup, List.filter_cons, hp, hk, ih]

theorem cleanupIfNeeded_vals_lookup {α : Type} (pc : PersistentCache α) (key : String) :
    mapLookup key pc.cleanupIfNeeded.vals = mapLookup key pc.vals ∨
    mapLookup key pc.cleanupIfNeeded.vals = none := by
  unfold PersistentCache.cleanupIfNeeded
  by_cases h : pc.meta.length > CACHE_MAX_ENTRIES
  · rw [if_pos h]
    obtain ⟨hv, _⟩ := foldl_delete_eq_filter
      ((sortByExpiry pc.meta).take (CACHE_MAX_ENTRIES * 2 / 10)) pc
    rw [hv, mapLookup_filter_notMem]
    by_cases hk : key
        ∈ ((sortByExpiry pc.meta).take (CACHE_MAX_ENTRIES * 2 / 10)).map Prod.fst
    · right
      rw [if_pos hk]
    · left
      rw [if_neg hk]
  · rw [if_neg h]
    left
    rfl

/-- C10: a null value written through the tiered cache is
observationally an absent entry: every later get returns null and
counts a miss, not a hit, and the withCache wrapper invokes the
underlying operation again.  Stated for a persistent tier whose writes
do not fault, so that no stale non-null durable value survives under
the key. -/
theorem hybridCache_cached_null_is_miss {α ε : Type} (jl : CacheItem α → Nat)
    (hc : HybridCache α) (now1 now2 : Nat) (key : String) (ttl : Nat)
    (opRes : Outcome (Option α) ε)
    (hfaults : ∀ n, hc.persistentCache.faults n = none) :
    ((HybridCache.set jl hc now1 key none ttl).get now2 key).1 = none ∧
    ((HybridCache.set jl hc now1 key none ttl).get now2 key).2.stats.misses
      = (HybridCache.set jl hc now1 key none ttl).stats.misses + 1 ∧
    ((HybridCache.set jl hc now1 key none ttl).get now2 key).2.stats.hits
      = (HybridCache.set jl hc now1 key none ttl).stats.hits ∧
    (withCacheCall jl (HybridCache.set jl hc now1 key none ttl) now2 key ttl opRes).2.2
      = true := by
  set st1 := HybridCache.set jl hc now1 key none ttl with hst1
  have hpcset := persistentCache_set_nofault jl hc.persistentCache now1 key none ttl
    (hfaults _)
  have hmem1 : st1.memoryCache
      = hc.memoryCache.set now1 key none (min ttl (5 * 60 * 1000)) := by
    rw [hst1]
    simp only [HybridCache.set]
  have hpc1 : st1.persistentCache = PersistentCache.cleanupIfNeeded
      { hc.persistentCache with
        vals := mapSet key ⟨none, now1 + ttl, now1⟩ hc.persistentCache.vals,
        meta := mapSet key ⟨now1 + ttl, jl ⟨none, now1 + ttl, now1⟩⟩
          hc.persistentCache.meta,
        tick := hc.persistentCache.tick + 1 } := by
    rw [hst1]
    simp only [HybridCache.set, hpcset]
  have hmget : (st1.memoryCache.get now2 key).1 = none := by
    rw [hmem1]
    exact memoryCache_set_null_get _ _ _ _ _
  have hplook : mapLookup key st1.persistentCache.vals = some ⟨none, now1 + ttl, now1⟩ ∨
      mapLookup key st1.persistentCache.vals = none := by
    rw [hpc1]
    rcases cleanupIfNeeded_vals_lookup
      { hc.persistentCache with
        vals := mapSet key ⟨none, now1 + ttl, now1⟩ hc.persistentCache.vals,
        meta := mapSet key ⟨now1 + ttl, jl ⟨none, now1 + ttl, now1⟩⟩
          hc.persistentCache.meta,
        tick := hc.persistentCache.tick + 1 } key with h | h
    · left
      rw [h]
      exact mapLookup_mapSet_self _ _ _
    · right
      exact h
  have hpget : (st1.persistentCache.get now2 key).1 = none := by
    unfold PersistentCache.get
    rcases hplook with h | h
    · rw [h]
      by_cases hx : now2 > now1 + ttl
      · simp [hx]
      · simp [hx]
    · rw [h]
  rcases hmg : st1.memoryCache.get now2 key with ⟨dm, mem2⟩
  rw [hmg] at hmget
  simp only at hmget
  subst hmget
  rcases hpg : st1.persistentCache.get now2 key with ⟨dp, pc2⟩
  rw [hpg] at hpget
  simp only at hpget
  subst hpget
  have hget : st1.get now2 key = (none,
      { memoryCache := mem2, persistentCache := pc2,
        stats := { st1.stats with misses := st1.stats.misses + 1 } }) := by
    unfold HybridCache.get
    rw [hmg, hpg]
  rw [hget]
  refine ⟨rfl, rfl, rfl, ?_⟩
  cases opRes with
  | ok v =>
    unfold withCacheCall
    rw [hget]
  | err e =>
    unfold withCacheCall
    rw [hget]

/-- C10 witness: the cached-null statement evaluated at the empty
cache with a null write at t = 0 and a get plus wrapped call at
t = 5. -/
theorem hybridCache_cached_null_is_miss_witness :
    ((HybridCache.set jlen0 hcEmpty 0 "k" none 1000).get 5 "k").1 = none ∧
    ((HybridCache.set jlen0 hcEmpty 0 "k" none 1000).get 5 "k").2.stats.misses
      = (HybridCache.set jlen0 hcEmpty 0 "k" none 1000).stats.misses + 1 ∧
    ((HybridCache.set jlen0 hcEmpty 0 "k" none 1000).get 5 "k").2.stats.hits
      = (HybridCache.set jlen0 hcEmpty 0 "k" none 1000).stats.hits ∧
    (withCacheCall jlen0 (HybridCache.set jlen0 hcEmpty 0 "k" none 1000) 5 "k" 1000
      (.ok (some 3) : Outcome (Option Nat) Nat)).2.2 = true :=
  hybridCache_cached_null_is_miss jlen0 hcEmpty 0 5 "k" 1000 (.ok (some 3))
    (fun _ => rfl)

end MayreneO
